import Mathlib

/-!
# Verification of the tabular RL repository (agents.py, returns.py, task.py)

Shallow embedding of the repository's core: the discounted-return
calculator (`returns.py`), the agent hierarchy with its epsilon-greedy
policy and update rules (`agents.py`), and the task driver's interaction
loop (`task.py`).

Modelling conventions:
* Rewards, Q-values and the discount factor live in `ℚ` (the source uses
  Python floats; the algorithms are plain field arithmetic).
* States and actions are `ℕ`; the `hashable` state fingerprint is the
  identity on this already-discrete state space.
* `defaultdict(float)` / `defaultdict(int)` become total functions with
  default value `0` (exactly the read semantics of a defaultdict).
* The Dyna-Q model `dict` becomes an insertion-ordered association list:
  writing an existing key updates it in place, a new key is appended.
* Randomness is passed in explicitly: `random.random()` becomes a
  rational draw `u` with `0 ≤ u < 1`, and each `random.choice(xs)`
  becomes an index reduced modulo `xs.length`.  A statement about the
  probability of an event over `random.random()` is rendered as the
  length of the sub-interval of `[0,1)` on which the event holds.
* Python exceptions (`ValueError`) become `Except String`.
-/

namespace RLSpec

/-- Embeds `returns.calculate_returns`'s discount matrix: row `i` holds
`discount_factors[: T - i]` starting at column `i`, zeros elsewhere, so
entry `(i, j)` is `gamma ^ (j - i)` when `i ≤ j < T` and `0` otherwise. -/
def discount_matrix (T : ℕ) (gamma : ℚ) (i j : ℕ) : ℚ :=
  if i ≤ j ∧ j < T then gamma ^ (j - i) else 0

/-- Embeds `returns.calculate_returns`: empty input yields `[]`; otherwise
the matrix-vector product `discount_matrix @ rewards`, element `i` being
the dot product of row `i` with the reward vector. -/
def calculate_returns (rewards : List ℚ) (gamma : ℚ) : List ℚ :=
  if rewards.isEmpty then []
  else
    (List.range rewards.length).map fun i =>
      ∑ j ∈ Finset.range rewards.length, discount_matrix rewards.length gamma i j * rewards.getD j 0

/-- Embeds `returns.calculate_episodic_return`: `0` for the empty input,
otherwise `Σ_t gamma^t * rewards[t]` (the `discount_factors * rewards` sum). -/
def calculate_episodic_return (rewards : List ℚ) (gamma : ℚ) : ℚ :=
  if rewards.isEmpty then 0
  else ∑ t ∈ Finset.range rewards.length, gamma ^ t * rewards.getD t 0

/-- The mutable state of `agents.AbstractAgent` (shared by every variant):
hyperparameters, the `learning` flag, the Q and visit-count tables, the
per-episode trajectory buffers `S`, `A`, `R`, and the Dyna-Q model. -/
structure AgentState where
  learning : Bool
  alpha : ℚ
  gamma : ℚ
  epsilon : ℚ
  n : ℕ
  max_episode_steps : ℕ
  num_planning_steps : ℕ
  Q : ℕ × ℕ → ℚ
  state_action_count : ℕ × ℕ → ℕ
  S : List ℕ
  A : List ℕ
  R : List ℚ
  model : List ((ℕ × ℕ) × (ℚ × ℕ))

/-- Embeds `AbstractAgent.reset`: reassigns `S`, `A`, `R` to empty lists
and `model` to the empty dict; every other field is untouched. -/
def AbstractAgent.reset (ag : AgentState) : AgentState :=
  { ag with S := [], A := [], R := [], model := [] }

/-- Embeds `AbstractAgent.on_step_end`: a no-op (`pass`). -/
def AbstractAgent.on_step_end (ag : AgentState) (_t : ℕ) : AgentState :=
  ag

/-- Embeds `AbstractAgent.on_episode_end`: calls `reset`. -/
def AbstractAgent.on_episode_end (ag : AgentState) (_k : ℕ) : AgentState :=
  AbstractAgent.reset ag

/-- The list `[self.Q[(S_t, a)] for a in range(n)]` built by `AbstractAgent.act`. -/
def qList (ag : AgentState) (s : ℕ) : List ℚ :=
  (List.range ag.n).map fun a => ag.Q (s, a)

/-- Python's `max` over a nonempty list, as a fold seeded with the head. -/
def listMax (l : List ℚ) : ℚ :=
  l.foldl max (l.headD 0)

/-- The candidate list `[a for a, q in enumerate(Q) if q == max(Q)]` of
`AbstractAgent.act`. -/
def maximaList (ag : AgentState) (s : ℕ) : List ℕ :=
  (List.range ag.n).filter fun a => decide (ag.Q (s, a) = listMax (qList ag s))

/-- Embeds `argmax_a = random.choice(maximaList)`: the tie-breaking draw
is an index reduced modulo the list length. -/
def greedyAction (ag : AgentState) (s : ℕ) (tie : ℕ) : ℕ :=
  (maximaList ag s).getD (tie % (maximaList ag s).length) 0

/-- The threshold `1 - epsilon + epsilon / n` that `AbstractAgent.act`
compares `random.random()` against. -/
def exploreThreshold (ag : AgentState) : ℚ :=
  1 - ag.epsilon + ag.epsilon / (ag.n : ℚ)

/-- The candidate list `[a for a in range(n) if a != argmax_a]` of the
exploration branch of `AbstractAgent.act`. -/
def nonGreedy (ag : AgentState) (s : ℕ) (tie : ℕ) : List ℕ :=
  (List.range ag.n).filter fun a => decide (a ≠ greedyAction ag s tie)

/-- The random draws consumed by one call of `AbstractAgent.act`: the
tie-breaking `random.choice` index, the `random.random()` draw `u`, and
the exploration `random.choice` index. -/
structure ActRand where
  tie : ℕ
  u : ℚ
  ex : ℕ

/-- Embeds `AbstractAgent.act`: compute the greedy action among the Q
maximizers; if `learning` and `u ≥ 1 - epsilon + epsilon / n`, pick from
the non-greedy actions, else return the greedy action. -/
def act (ag : AgentState) (s : ℕ) (r : ActRand) : ℕ :=
  if ag.learning ∧ exploreThreshold ag ≤ r.u then
    (nonGreedy ag s r.tie).getD (r.ex % (nonGreedy ag s r.tie).length) 0
  else greedyAction ag s r.tie

/-- The length of the sub-interval of `[0, 1)` on which `random.random()`
sends `act` into its exploration branch, i.e. the probability of
exploring: `u ≥ exploreThreshold` cuts off a piece of length
`1 - exploreThreshold` (clamped at 0). -/
def exploreProb (ag : AgentState) : ℚ :=
  max 0 (1 - exploreThreshold ag)

/-- Embeds `MCAgent._incremental_avg`. -/
def incremental_avg (prev_avg curr_val : ℚ) (n : ℕ) : ℚ :=
  prev_avg * (n : ℚ) / ((n : ℚ) + 1) + curr_val / ((n : ℚ) + 1)

/-- Embeds `MCAgent._already_occurred`: linear scan over steps `0 .. t-1`. -/
def already_occurred (S A : List ℕ) (state action t : ℕ) : Bool :=
  (List.range t).any fun t_prev =>
    decide (S.getD t_prev 0 = state) && decide (A.getD t_prev 0 = action)

/-- The backward loop of `MCAgent.on_episode_end`, folded over the
descending list of time indices `ts`, threading `G_t`, `Q` and the visit
counts. -/
def mcLoop (gamma : ℚ) (S A : List ℕ) (R : List ℚ) :
    List ℕ → ℚ → (ℕ × ℕ → ℚ) → (ℕ × ℕ → ℕ) → (ℕ × ℕ → ℚ) × (ℕ × ℕ → ℕ)
  | [], _, Q, cnt => (Q, cnt)
  | t :: ts, G, Q, cnt =>
    let S_t := S.getD t 0
    let A_t := A.getD t 0
    let G' := gamma * G + R.getD (t + 1) 0
    if already_occurred S A S_t A_t t then mcLoop gamma S A R ts G' Q cnt
    else
      let key := (S_t, A_t)
      let Q' := fun p => if p = key then incremental_avg (Q key) G' (cnt key) else Q p
      let cnt' := fun p => if p = key then cnt key + 1 else cnt p
      mcLoop gamma S A R ts G' Q' cnt'

/-- Embeds `MCAgent.on_episode_end`: raise `ValueError` unless
`len(S) == len(A) == len(R)`; otherwise run the backward loop
`for t in range(len(S) - 3, -1, -1)` (the Python source initialises
`t = len(S) - 1` and iterates `range(t - 2, -1, -1)`), decay epsilon when
`k % 9999999 == 0`, and `reset`. -/
def MCAgent.on_episode_end (ag : AgentState) (k : ℕ) : Except String AgentState :=
  if ¬(ag.S.length = ag.A.length ∧ ag.A.length = ag.R.length) then
    Except.error "ValueError: the lengths of S, A, and R must be equal at the end of an episode"
  else
    let ts := (List.range (ag.S.length - 2)).reverse
    let qc := mcLoop ag.gamma ag.S ag.A ag.R ts 0 ag.Q ag.state_action_count
    let eps' := if k % 9999999 = 0 then ag.epsilon * (1 / 2) else ag.epsilon
    Except.ok (AbstractAgent.reset
      { ag with Q := qc.1, state_action_count := qc.2, epsilon := eps' })

/-- Embeds `SARSAAgent.on_step_end`:
`Q[S_t,A_t] += alpha * (R[t] + gamma * Q[S_{t+1},A_{t+1}] - Q[S_t,A_t])`. -/
def SARSAAgent.on_step_end (ag : AgentState) (t : ℕ) : AgentState :=
  let key := (ag.S.getD t 0, ag.A.getD t 0)
  let target := ag.R.getD t 0 + ag.gamma * ag.Q (ag.S.getD (t + 1) 0, ag.A.getD (t + 1) 0)
  { ag with Q := fun p => if p = key then ag.Q key + ag.alpha * (target - ag.Q key) else ag.Q p }

/-- Embeds `max([Q[(s, a)] for a in range(n)])` of Q-learning and Dyna-Q. -/
def qMax (Q : ℕ × ℕ → ℚ) (n : ℕ) (s : ℕ) : ℚ :=
  listMax ((List.range n).map fun a => Q (s, a))

/-- Embeds `QAgent.on_step_end`:
`Q[S_t,A_t] += alpha * (R[t] + gamma * max_a Q[S_{t+1},a] - Q[S_t,A_t])`. -/
def QAgent.on_step_end (ag : AgentState) (t : ℕ) : AgentState :=
  let key := (ag.S.getD t 0, ag.A.getD t 0)
  let target := ag.R.getD t 0 + ag.gamma * qMax ag.Q ag.n (ag.S.getD (t + 1) 0)
  { ag with Q := fun p => if p = key then ag.Q key + ag.alpha * (target - ag.Q key) else ag.Q p }

/-- Python-dict write on the insertion-ordered association list: update
in place when the key exists, append otherwise. -/
def modelInsert (m : List ((ℕ × ℕ) × (ℚ × ℕ))) (k : ℕ × ℕ) (v : ℚ × ℕ) :
    List ((ℕ × ℕ) × (ℚ × ℕ)) :=
  if (m.lookup k).isSome then m.map fun kv => if kv.1 = k then (k, v) else kv
  else m ++ [(k, v)]

/-- The planning loop of `DynaQAgent.on_step_end`: each iteration draws a
`random.choice` index `c`, picks key `list(model.keys())[c % len]`, reads
the stored `(R, S')`, and applies the Q-learning update. -/
def dynaPlan (alpha gamma : ℚ) (n : ℕ) (model : List ((ℕ × ℕ) × (ℚ × ℕ))) :
    List ℕ → (ℕ × ℕ → ℚ) → (ℕ × ℕ → ℚ)
  | [], Q => Q
  | c :: cs, Q =>
    let keys := model.map Prod.fst
    let key := keys.getD (c % keys.length) (0, 0)
    let rs := (model.lookup key).getD (0, 0)
    let Q' := fun p =>
      if p = key then Q key + alpha * (rs.1 + gamma * qMax Q n rs.2 - Q key) else Q p
    dynaPlan alpha gamma n model cs Q'

/-- Embeds `DynaQAgent.on_step_end`: the direct Q-learning update on the
real transition, the model write, then `num_planning_steps` planning
updates; `choice t` supplies the `random.choice` index of planning
iteration `t`. -/
def DynaQAgent.on_step_end (ag : AgentState) (t : ℕ) (choice : ℕ → ℕ) : AgentState :=
  let S_t := ag.S.getD t 0
  let A_t := ag.A.getD t 0
  let R_t := ag.R.getD t 0
  let S_t1 := ag.S.getD (t + 1) 0
  let key := (S_t, A_t)
  let Q1 := fun p =>
    if p = key then ag.Q key + ag.alpha * (R_t + ag.gamma * qMax ag.Q ag.n S_t1 - ag.Q key)
    else ag.Q p
  let model' := modelInsert ag.model key (R_t, S_t1)
  let Q2 := dynaPlan ag.alpha ag.gamma ag.n model'
    ((List.range ag.num_planning_steps).map choice) Q1
  { ag with Q := Q2, model := model' }

/-- The state of `RLTask.visualize_episode`'s agent after the call: the
method runs `agent.reset()`, sets `agent.learning = False`, and its
render loop only calls the side-effect-free `agent.act`. -/
def visualize_episode (ag : AgentState) : AgentState :=
  { AbstractAgent.reset ag with learning := false }

/-- The environment collaborator of `RLTask`, as a deterministic
transition system over discrete observations: `init` is the observation
returned by `reset()`, and `step s a` yields the next observation, the
reward, and the combined `terminated or truncated` flag. -/
structure Env where
  init : ℕ
  step : ℕ → ℕ → ℕ × ℚ × Bool

/-- What one episode of `RLTask.interact` produces: the agent after the
inner loop, the number of `on_step_end` invocations, the number of
`env.step` transitions, and whether the episode ended with `done`. -/
structure EpisodeOut where
  agent : AgentState
  stepCalls : ℕ
  transitions : ℕ
  done : Bool

/-- The inner `for t in range(max_episode_steps)` loop of
`RLTask.interact`: step the environment, append the reward, break on
`done`; otherwise append the next state, choose and append the next
action (`actFn` stands for `agent.act` with its random draws supplied),
and invoke `on_step_end(t)` (`stepHook`). -/
def episodeLoop (env : Env) (actFn : AgentState → ℕ → ℕ)
    (stepHook : AgentState → ℕ → AgentState) :
    ℕ → ℕ → AgentState → ℕ → ℕ → EpisodeOut
  | 0, _, ag, _, _ => ⟨ag, 0, 0, false⟩
  | fuel + 1, t, ag, s, a =>
    let srd := env.step s a
    let ag1 := { ag with R := ag.R ++ [srd.2.1] }
    if srd.2.2 then ⟨ag1, 0, 1, true⟩
    else
      let ag2 := { ag1 with S := ag1.S ++ [srd.1] }
      let a' := actFn ag2 srd.1
      let ag3 := { ag2 with A := ag2.A ++ [a'] }
      let ag4 := stepHook ag3 t
      let rest := episodeLoop env actFn stepHook fuel (t + 1) ag4 srd.1 a'
      ⟨rest.agent, rest.stepCalls + 1, rest.transitions + 1, rest.done⟩

/-- One episode of `RLTask.interact`: reset the agent, record the initial
state, choose and record the first action, then run the inner loop for at
most `max_episode_steps` steps. -/
def runEpisode (env : Env) (actFn : AgentState → ℕ → ℕ)
    (stepHook : AgentState → ℕ → AgentState) (ag : AgentState) : EpisodeOut :=
  let ag0 := AbstractAgent.reset ag
  let ag1 := { ag0 with S := [env.init] }
  let a0 := actFn ag1 env.init
  let ag2 := { ag1 with A := [a0] }
  episodeLoop env actFn stepHook ag.max_episode_steps 0 ag2 env.init a0

/-- What `RLTask.interact` produces over all episodes: the returned
`avg_returns` list, the internal `episodic_returns` list, and the numbers
of completed `on_episode_end` and `on_step_end` invocations. -/
structure InteractOut where
  avg : List ℚ
  epiRets : List ℚ
  epCalls : ℕ
  stepCalls : ℕ

/-- The episode loop of `RLTask.interact` over the episode indices `ks`,
carrying the episodic returns `prev` accumulated so far: run the episode,
append `calculate_episodic_return(agent.R, agent.gamma)`, append the
running mean `sum(episodic_returns) / (k + 1)`, then call
`on_episode_end(k)` (`epHook`), whose `ValueError` aborts the whole call. -/
def interactLoop (env : Env) (actFn : AgentState → ℕ → ℕ)
    (stepHook : AgentState → ℕ → AgentState)
    (epHook : AgentState → ℕ → Except String AgentState) :
    List ℕ → AgentState → List ℚ → Except String InteractOut
  | [], _, _ => Except.ok ⟨[], [], 0, 0⟩
  | k :: ks, ag, prev =>
    let ep := runEpisode env actFn stepHook ag
    let g := calculate_episodic_return ep.agent.R ep.agent.gamma
    let prev' := prev ++ [g]
    let avg_k := prev'.sum / ((k : ℚ) + 1)
    match epHook ep.agent k with
    | Except.error e => Except.error e
    | Except.ok ag' =>
      match interactLoop env actFn stepHook epHook ks ag' prev' with
      | Except.error e => Except.error e
      | Except.ok out =>
        Except.ok ⟨avg_k :: out.avg, g :: out.epiRets,
          out.epCalls + 1, out.stepCalls + ep.stepCalls⟩

/-- Embeds `RLTask.interact(num_episodes)`: the loop
`for k in range(num_episodes)`. -/
def interact (env : Env) (actFn : AgentState → ℕ → ℕ)
    (stepHook : AgentState → ℕ → AgentState)
    (epHook : AgentState → ℕ → Except String AgentState)
    (ag : AgentState) (num_episodes : ℕ) : Except String InteractOut :=
  interactLoop env actFn stepHook epHook (List.range num_episodes) ag []

/-! ### Concrete instances used to exercise the embedding -/

/-- A fresh agent with one action, empty tables and buffers, `alpha = 1/2`,
`gamma = 1`, `epsilon = 0`, `learning = true`. -/
def baseAgent : AgentState :=
  ⟨true, 1/2, 1, 0, 1, 50, 0, fun _ => 0, fun _ => 0, [], [], [], []⟩

/-- The spec's two-step Monte Carlo scenario: states `[s0, s1] = [0, 1]`,
actions `[a0, a1] = [0, 1]`, rewards `[r1, r2] = [1, 2]`, `gamma = 1`. -/
def mcAgTwoStep : AgentState :=
  { baseAgent with S := [0, 1], A := [0, 1], R := [1, 2] }

/-- A learning agent with two actions, `epsilon = 1/2`, and a Q table
whose unique maximizer at state `0` is action `0`. -/
def agEps : AgentState :=
  { baseAgent with n := 2, epsilon := 1/2, Q := fun p => if p = (0, 0) then 1 else 0 }

/-- An agent mid-episode right after its first transition `(s, a, r, s')`
`= (0, 0, 1, 1)` as the interaction loop records it, with one planning
step configured. -/
def dynAgPlanOne : AgentState :=
  { baseAgent with S := [0, 1], A := [0, 0], R := [1], num_planning_steps := 1 }

/-- An agent mid-episode for the `alpha = 1/2`, `gamma = 1`, all-zero-Q
single-transition scenario of the TD update rules, with planning steps
`N` and `n` actions. -/
def tdAgent (n N : ℕ) (S A : List ℕ) (R : List ℚ) : AgentState :=
  { baseAgent with n := n, num_planning_steps := N, S := S, A := A, R := R }

/-- An agent owning a nonempty Dyna-Q model table and nonempty buffers. -/
def agModel : AgentState :=
  { baseAgent with S := [5], A := [3], R := [2], model := [((0, 0), (1, 1))] }

/-- An environment whose very first transition reports `done`. -/
def envDone : Env := ⟨0, fun _ _ => (0, 1, true)⟩

/-- An environment that never reports `done`. -/
def envLive : Env := ⟨0, fun s _ => (s + 1, 1, false)⟩

/-- A non-learning agent capped at two steps per episode. -/
def agOff : AgentState := { baseAgent with learning := false, max_episode_steps := 2 }

/-- A Monte Carlo agent capped at two steps per episode. -/
def mcAgCapped : AgentState := { baseAgent with max_episode_steps := 2 }

/-- Environment for the running-average scenario: the reward of the single
transition of each episode is the action index, and the episode ends
immediately. -/
def envAvg : Env := ⟨0, fun _ a => (0, (a : ℚ), true)⟩

/-- Action choice for the running-average scenario: play the value stored
in the (episode-persistent) visit-count table at `(0, 0)`. -/
def actFnAvg : AgentState → ℕ → ℕ := fun ag _ => ag.state_action_count (0, 0)

/-- Episode hook for the running-average scenario: raise the stored value
by 10, so successive episodes produce raw returns 10, 20, 30, …. -/
def epHookAvg : AgentState → ℕ → Except String AgentState :=
  fun ag _ => Except.ok { ag with state_action_count := fun p => ag.state_action_count p + 10 }

/-- Initial agent for the running-average scenario: stored value 10. -/
def agAvg : AgentState :=
  { baseAgent with state_action_count := fun _ => 10, max_episode_steps := 5 }

end RLSpec

namespace RLSpec

/-! ### Helper lemmas -/

lemma getD_map_range (T i : ℕ) (f : ℕ → ℚ) (h : i < T) :
    ((List.range T).map f).getD i 0 = f i := by
  rw [List.getD_eq_getElem?_getD, List.getElem?_map, List.getElem?_range h]
  rfl

lemma filter_le_range (T i : ℕ) :
    (Finset.range T).filter (fun j => i ≤ j) = Finset.Ico i T := by
  ext j
  simp [Finset.mem_filter, Finset.mem_range, Finset.mem_Ico, and_comm]

lemma calculate_returns_nil (gamma : ℚ) : calculate_returns [] gamma = [] := rfl

lemma calculate_returns_length (rewards : List ℚ) (gamma : ℚ) :
    (calculate_returns rewards gamma).length = rewards.length := by
  cases rewards with
  | nil => rfl
  | cons a l => simp [calculate_returns]

lemma calculate_returns_getD (rewards : List ℚ) (gamma : ℚ) (i : ℕ)
    (h : i < rewards.length) :
    (calculate_returns rewards gamma).getD i 0
      = ∑ l ∈ Finset.range (rewards.length - i), gamma ^ l * rewards.getD (i + l) 0 := by
  have hne : rewards.isEmpty = false := by
    cases rewards with
    | nil => simp at h
    | cons a l => rfl
  rw [calculate_returns]
  rw [hne]
  simp only [Bool.false_eq_true, if_false]
  rw [getD_map_range _ _ _ h]
  have h1 : ∀ j ∈ Finset.range rewards.length,
      discount_matrix rewards.length gamma i j * rewards.getD j 0
        = if i ≤ j then gamma ^ (j - i) * rewards.getD j 0 else 0 := by
    intro j hj
    rw [Finset.mem_range] at hj
    unfold discount_matrix
    by_cases hij : i ≤ j
    · simp [hij, hj]
    · simp [hij]
  rw [Finset.sum_congr rfl h1]
  rw [← Finset.sum_filter]
  rw [filter_le_range]
  rw [Finset.sum_Ico_eq_sum_range]
  apply Finset.sum_congr rfl
  intro l _
  rw [Nat.add_sub_cancel_left]

lemma calculate_returns_last (rewards : List ℚ) (gamma : ℚ) (h : rewards ≠ []) :
    (calculate_returns rewards gamma).getD (rewards.length - 1) 0
      = rewards.getD (rewards.length - 1) 0 := by
  have hpos : 0 < rewards.length := List.length_pos.mpr h
  rw [calculate_returns_getD _ _ _ (by omega)]
  have h1 : rewards.length - (rewards.length - 1) = 1 := by omega
  rw [h1, Finset.sum_range_one]
  simp

lemma calculate_returns_step (rewards : List ℚ) (gamma : ℚ) (i : ℕ)
    (h : i + 1 < rewards.length) :
    (calculate_returns rewards gamma).getD i 0
      = rewards.getD i 0 + gamma * (calculate_returns rewards gamma).getD (i + 1) 0 := by
  rw [calculate_returns_getD _ _ _ (by omega), calculate_returns_getD _ _ _ h]
  have hT : rewards.length - i = (rewards.length - (i + 1)) + 1 := by omega
  rw [hT, Finset.sum_range_succ']
  rw [Finset.mul_sum, add_comm]
  congr 1
  · simp
  · apply Finset.sum_congr rfl
    intro l _
    rw [pow_succ]
    have h2 : i + (l + 1) = i + 1 + l := by omega
    rw [h2]
    ring

lemma calculate_episodic_return_eq (rewards : List ℚ) (gamma : ℚ) (h : rewards ≠ []) :
    calculate_episodic_return rewards gamma = (calculate_returns rewards gamma).getD 0 0 := by
  have hpos : 0 < rewards.length := List.length_pos.mpr h
  rw [calculate_returns_getD _ _ _ hpos]
  have hne : rewards.isEmpty = false := by
    cases rewards with
    | nil => exact absurd rfl h
    | cons a l => rfl
  rw [calculate_episodic_return, hne]
  simp

/-! ### Claims about the return calculator -/

/-- C6: for every reward sequence of length `T` and every `gamma` in
`[0, 1]`, `calculate_returns` returns a sequence of length `T` whose
element `i` is `Σ_{l=0..T-1-i} gamma^l * rewards[i+l]`; equivalently
`output[i] = rewards[i] + gamma * output[i+1]` for `i < T-1` and
`output[T-1] = rewards[T-1]`; the empty input yields the empty output. -/
theorem claim_returns_spec (rewards : List ℚ) (gamma : ℚ)
    (h0 : 0 ≤ gamma) (h1 : gamma ≤ 1) :
    (calculate_returns rewards gamma).length = rewards.length ∧
    (∀ i, i < rewards.length → (calculate_returns rewards gamma).getD i 0
        = ∑ l ∈ Finset.range (rewards.length - i), gamma ^ l * rewards.getD (i + l) 0) ∧
    (∀ i, i + 1 < rewards.length → (calculate_returns rewards gamma).getD i 0
        = rewards.getD i 0 + gamma * (calculate_returns rewards gamma).getD (i + 1) 0) ∧
    (rewards ≠ [] → (calculate_returns rewards gamma).getD (rewards.length - 1) 0
        = rewards.getD (rewards.length - 1) 0) ∧
    calculate_returns ([] : List ℚ) gamma = [] :=
  ⟨calculate_returns_length rewards gamma,
   fun i hi => calculate_returns_getD rewards gamma i hi,
   fun i hi => calculate_returns_step rewards gamma i hi,
   fun h => calculate_returns_last rewards gamma h,
   calculate_returns_nil gamma⟩

/-- Witness for C6 at `rewards = [1, 2]`, `gamma = 1/2`. -/
theorem claim_returns_spec_witness :
    (0 : ℚ) ≤ 1/2 ∧ (1/2 : ℚ) ≤ 1 ∧
    (calculate_returns [1, 2] (1/2)).length = ([1, 2] : List ℚ).length := by
  refine ⟨by norm_num, by norm_num, ?_⟩
  exact (claim_returns_spec [1, 2] (1/2) (by norm_num) (by norm_num)).1

/-- C8: `calculate_episodic_return` equals element 0 of
`calculate_returns` for nonempty input, and is `0.0` on the empty input,
for which `calculate_returns` returns the empty list. -/
theorem claim_episodic_return_head (rewards : List ℚ) (gamma : ℚ) :
    (rewards = [] → calculate_episodic_return rewards gamma = 0 ∧
        calculate_returns rewards gamma = []) ∧
    (rewards ≠ [] → calculate_episodic_return rewards gamma
        = (calculate_returns rewards gamma).getD 0 0) := by
  constructor
  · rintro rfl
    exact ⟨rfl, rfl⟩
  · exact calculate_episodic_return_eq rewards gamma

/-- Witness for C8 at `rewards = [1, 2]`, `gamma = 1/2`. -/
theorem claim_episodic_return_head_witness :
    calculate_episodic_return [1, 2] (1/2)
      = (calculate_returns [1, 2] (1/2)).getD 0 0 :=
  (claim_episodic_return_head [1, 2] (1/2)).2 (by simp)

end RLSpec

namespace RLSpec

/-! ### Task-driver loop invariants -/

lemma episodeLoop_stepCalls (env : Env) (actFn : AgentState → ℕ → ℕ)
    (stepHook : AgentState → ℕ → AgentState) :
    ∀ (fuel t : ℕ) (ag : AgentState) (s a : ℕ),
      (episodeLoop env actFn stepHook fuel t ag s a).transitions
        = (episodeLoop env actFn stepHook fuel t ag s a).stepCalls
          + (if (episodeLoop env actFn stepHook fuel t ag s a).done then 1 else 0) := by
  intro fuel
  induction fuel with
  | zero => intro t ag s a; rfl
  | succ m ih =>
    intro t ag s a
    simp only [episodeLoop]
    by_cases hd : (env.step s a).2.2
    · simp [hd]
    · simp only [hd, Bool.false_eq_true, if_false]
      rw [ih]
      omega

lemma runEpisode_stepCalls (env : Env) (actFn : AgentState → ℕ → ℕ)
    (stepHook : AgentState → ℕ → AgentState) (ag : AgentState) :
    (runEpisode env actFn stepHook ag).transitions
      = (runEpisode env actFn stepHook ag).stepCalls
        + (if (runEpisode env actFn stepHook ag).done then 1 else 0) :=
  episodeLoop_stepCalls env actFn stepHook ag.max_episode_steps 0 _ env.init _

lemma episodeLoop_lengths (env : Env) (actFn : AgentState → ℕ → ℕ)
    (hnd : ∀ s a, (env.step s a).2.2 = false) :
    ∀ (fuel t : ℕ) (ag : AgentState) (s a : ℕ),
      ag.S.length = ag.A.length → ag.A.length = ag.R.length + 1 →
      (episodeLoop env actFn AbstractAgent.on_step_end fuel t ag s a).agent.S.length
          = (episodeLoop env actFn AbstractAgent.on_step_end fuel t ag s a).agent.A.length ∧
        (episodeLoop env actFn AbstractAgent.on_step_end fuel t ag s a).agent.A.length
          = (episodeLoop env actFn AbstractAgent.on_step_end fuel t ag s a).agent.R.length + 1 := by
  intro fuel
  induction fuel with
  | zero => intro t ag s a h1 h2; exact ⟨h1, h2⟩
  | succ m ih =>
    intro t ag s a h1 h2
    simp only [episodeLoop, hnd s a, Bool.false_eq_true, if_false]
    apply ih
    · simp [AbstractAgent.on_step_end, h1]
    · simp [AbstractAgent.on_step_end, h2]

lemma runEpisode_lengths (env : Env) (actFn : AgentState → ℕ → ℕ)
    (hnd : ∀ s a, (env.step s a).2.2 = false) (ag : AgentState) :
    (runEpisode env actFn AbstractAgent.on_step_end ag).agent.S.length
        = (runEpisode env actFn AbstractAgent.on_step_end ag).agent.A.length ∧
      (runEpisode env actFn AbstractAgent.on_step_end ag).agent.A.length
        = (runEpisode env actFn AbstractAgent.on_step_end ag).agent.R.length + 1 := by
  unfold runEpisode
  exact episodeLoop_lengths env actFn hnd ag.max_episode_steps 0 _ env.init _ rfl rfl

lemma interactLoop_counts (env : Env) (actFn : AgentState → ℕ → ℕ)
    (stepHook : AgentState → ℕ → AgentState)
    (epHook : AgentState → ℕ → Except String AgentState) :
    ∀ (ks : List ℕ) (ag : AgentState) (prev : List ℚ) (out : InteractOut),
      interactLoop env actFn stepHook epHook ks ag prev = Except.ok out →
      out.epCalls = ks.length ∧ out.avg.length = ks.length ∧
        out.epiRets.length = ks.length := by
  intro ks
  induction ks with
  | nil =>
    intro ag prev out h
    simp only [interactLoop] at h
    cases h
    exact ⟨rfl, rfl, rfl⟩
  | cons k ks ih =>
    intro ag prev out h
    simp only [interactLoop] at h
    cases hep : epHook (runEpisode env actFn stepHook ag).agent k with
    | error e => rw [hep] at h; simp at h
    | ok ag2 =>
      rw [hep] at h
      dsimp only at h
      cases hrec : interactLoop env actFn stepHook epHook ks ag2
          (prev ++ [calculate_episodic_return (runEpisode env actFn stepHook ag).agent.R
            (runEpisode env actFn stepHook ag).agent.gamma]) with
      | error e => rw [hrec] at h; simp at h
      | ok out2 =>
        rw [hrec] at h
        dsimp only at h
        cases h
        have h3 := ih ag2 _ out2 hrec
        simp [h3.1, h3.2.1, h3.2.2]

lemma interactLoop_avg (env : Env) (actFn : AgentState → ℕ → ℕ)
    (stepHook : AgentState → ℕ → AgentState)
    (epHook : AgentState → ℕ → Except String AgentState) :
    ∀ (c m : ℕ) (ag : AgentState) (prev : List ℚ) (out : InteractOut),
      prev.length = m →
      interactLoop env actFn stepHook epHook (List.range' m c) ag prev = Except.ok out →
      ∀ j, j < c → out.avg.getD j 0
        = ((prev ++ out.epiRets).take (m + j + 1)).sum / ((m : ℚ) + (j : ℚ) + 1) := by
  intro c
  induction c with
  | zero => intro m ag prev out hm h j hj; exact absurd hj (Nat.not_lt_zero j)
  | succ cN ih =>
    intro m ag prev out hm h j hj
    rw [List.range'_succ] at h
    simp only [interactLoop] at h
    cases hep : epHook (runEpisode env actFn stepHook ag).agent m with
    | error e => rw [hep] at h; simp at h
    | ok ag2 =>
      rw [hep] at h
      dsimp only at h
      cases hrec : interactLoop env actFn stepHook epHook (List.range' (m + 1) cN) ag2
          (prev ++ [calculate_episodic_return (runEpisode env actFn stepHook ag).agent.R
            (runEpisode env actFn stepHook ag).agent.gamma]) with
      | error e => rw [hrec] at h; simp at h
      | ok out2 =>
        rw [hrec] at h
        dsimp only at h
        cases h
        cases j with
        | zero =>
          simp only [List.getD_cons_zero]
          rw [List.take_append_eq_append_take, List.take_of_length_le (by omega), hm]
          simp only [Nat.add_zero, Nat.add_sub_cancel_left, List.take_succ_cons,
            List.take_zero]
          push_cast
          ring_nf
        | succ j =>
          have hstep := ih (m + 1) ag2 _ out2 (by simp [hm]) hrec j (by omega)
          simp only [List.getD_cons_succ]
          rw [hstep, List.append_assoc, List.singleton_append]
          rw [show m + 1 + j + 1 = m + (j + 1) + 1 from by omega]
          congr 1
          push_cast
          ring

end RLSpec

namespace RLSpec

lemma mc_on_episode_end_error (ag : AgentState) (k : ℕ)
    (h : ag.A.length = ag.R.length + 1) :
    MCAgent.on_episode_end ag k = Except.error
      "ValueError: the lengths of S, A, and R must be equal at the end of an episode" := by
  rw [MCAgent.on_episode_end, if_pos]
  rintro ⟨_, h2⟩
  omega

/-! ### Claims about the task driver -/

/-- C3 counterexample: the claim predicts that with `learning = true` the
step hook runs after every transition including the final one, and that
with `learning = false` neither hook runs.  On an environment whose first
transition reports `done`, a learning agent's episode has 1 transition
but 0 `on_step_end` calls; and a non-learning agent still gets its
`on_episode_end` called once and its `on_step_end` called after each
non-final transition (here 2 calls in a 2-step episode). -/
theorem claim_hook_invocations_cex :
    baseAgent.learning = true ∧
    (runEpisode envDone (fun _ _ => 0) AbstractAgent.on_step_end baseAgent).transitions = 1 ∧
    (runEpisode envDone (fun _ _ => 0) AbstractAgent.on_step_end baseAgent).stepCalls = 0 ∧
    agOff.learning = false ∧
    (interact envLive (fun _ _ => 0) AbstractAgent.on_step_end
        (fun ag k => Except.ok (AbstractAgent.on_episode_end ag k)) agOff 1).toOption.map
      InteractOut.epCalls = some 1 ∧
    (interact envLive (fun _ _ => 0) AbstractAgent.on_step_end
        (fun ag k => Except.ok (AbstractAgent.on_episode_end ag k)) agOff 1).toOption.map
      InteractOut.stepCalls = some 2 := by
  decide

/-- C3 (amended): `RLTask.interact` invokes `on_step_end` after every
transition except the final transition of an episode that ends with
`done` (`transitions = stepCalls + 1` exactly when the episode ended by
`done`, else `transitions = stepCalls`), and invokes `on_episode_end`
exactly once per completed episode — in both cases unconditionally,
regardless of the agent's `learning` flag (the embedding takes no
`learning` condition anywhere, mirroring the source). -/
theorem claim_hook_invocations (env : Env) (actFn : AgentState → ℕ → ℕ)
    (stepHook : AgentState → ℕ → AgentState)
    (epHook : AgentState → ℕ → Except String AgentState) (ag : AgentState) :
    ((runEpisode env actFn stepHook ag).transitions
        = (runEpisode env actFn stepHook ag).stepCalls
          + (if (runEpisode env actFn stepHook ag).done then 1 else 0)) ∧
    (∀ (n : ℕ) (out : InteractOut),
        interact env actFn stepHook epHook ag n = Except.ok out → out.epCalls = n) := by
  constructor
  · exact runEpisode_stepCalls env actFn stepHook ag
  · intro n out h
    unfold interact at h
    have hc := interactLoop_counts env actFn stepHook epHook (List.range n) ag [] out h
    simpa using hc.1

/-- Witness for C3's amended claim on a concrete two-episode run. -/
theorem claim_hook_invocations_witness :
    (interact envDone (fun _ _ => 0) AbstractAgent.on_step_end
        (fun ag k => Except.ok (AbstractAgent.on_episode_end ag k)) agOff 2).toOption.map
      InteractOut.epCalls = some 2 := by
  have h : interact envDone (fun _ _ => 0) AbstractAgent.on_step_end
      (fun ag k => Except.ok (AbstractAgent.on_episode_end ag k)) agOff 2
      = Except.ok ⟨[1, 1], [1, 1], 2, 0⟩ := by
    norm_num [interact, interactLoop, runEpisode, episodeLoop, AbstractAgent.reset,
      AbstractAgent.on_step_end, AbstractAgent.on_episode_end, calculate_episodic_return,
      Finset.sum_range_succ, envDone, agOff, baseAgent, List.range_succ]
  have h2 := (claim_hook_invocations envDone (fun _ _ => 0) AbstractAgent.on_step_end
    (fun ag k => Except.ok (AbstractAgent.on_episode_end ag k)) agOff).2 2 _ h
  rw [h]
  exact congrArg some h2

/-- C7: `RLTask.interact(num_episodes)` returns the cumulative running
means of the per-episode discounted returns: it appends one element per
episode, records each episode's `calculate_episodic_return` internally,
and element `k` of the output equals `(G_0 + … + G_k) / (k + 1)`. -/
theorem claim_interact_running_mean (env : Env) (actFn : AgentState → ℕ → ℕ)
    (stepHook : AgentState → ℕ → AgentState)
    (epHook : AgentState → ℕ → Except String AgentState)
    (ag : AgentState) (n : ℕ) (out : InteractOut)
    (h : interact env actFn stepHook epHook ag n = Except.ok out) :
    out.avg.length = n ∧ out.epiRets.length = n ∧
    ∀ k, k < n → out.avg.getD k 0 = (out.epiRets.take (k + 1)).sum / ((k : ℚ) + 1) := by
  have hc := interactLoop_counts env actFn stepHook epHook (List.range n) ag [] out h
  refine ⟨by simpa using hc.2.1, by simpa using hc.2.2, ?_⟩
  intro k hk
  unfold interact at h
  rw [List.range_eq_range'] at h
  have h2 := interactLoop_avg env actFn stepHook epHook n 0 ag [] out rfl h k hk
  simpa using h2

/-- Witness for C7: a run whose raw episodic returns are `[10, 20, 30]`
yields `avg_returns = [10, 15, 20]`, and element 1 is indeed
`(10 + 20) / 2`. -/
theorem claim_interact_running_mean_witness :
    interact envAvg actFnAvg AbstractAgent.on_step_end epHookAvg agAvg 3
      = Except.ok ⟨[10, 15, 20], [10, 20, 30], 3, 0⟩ ∧
    ([(10 : ℚ), 15, 20].getD 1 0 = (([(10 : ℚ), 20, 30].take 2).sum) / 2) := by
  have h : interact envAvg actFnAvg AbstractAgent.on_step_end epHookAvg agAvg 3
      = Except.ok ⟨[10, 15, 20], [10, 20, 30], 3, 0⟩ := by
    norm_num [interact, interactLoop, runEpisode, episodeLoop, AbstractAgent.reset,
      AbstractAgent.on_step_end, calculate_episodic_return, Finset.sum_range_succ,
      envAvg, actFnAvg, epHookAvg, agAvg, baseAgent, List.range_succ]
  refine ⟨h, ?_⟩
  have h2 := (claim_interact_running_mean envAvg actFnAvg AbstractAgent.on_step_end
      epHookAvg agAvg 3 _ h).2.2 1 (by norm_num)
  rw [h2]
  norm_num

/-- C9: when an episode exhausts `max_episode_steps` without the
environment ever reporting `done`, the buffers end with
`len(S) = len(A) = len(R) + 1`, so `MCAgent.on_episode_end` raises
`ValueError` — before touching `Q`, hence no Monte Carlo update is
applied (in the embedding the error is returned instead of a state) —
and the error propagates out of `interact`. -/
theorem claim_step_cap_value_error (env : Env) (actFn : AgentState → ℕ → ℕ)
    (ag : AgentState) (hnd : ∀ s a, (env.step s a).2.2 = false) :
    ((runEpisode env actFn AbstractAgent.on_step_end ag).agent.S.length
        = (runEpisode env actFn AbstractAgent.on_step_end ag).agent.A.length) ∧
    ((runEpisode env actFn AbstractAgent.on_step_end ag).agent.A.length
        = (runEpisode env actFn AbstractAgent.on_step_end ag).agent.R.length + 1) ∧
    (∀ k, MCAgent.on_episode_end (runEpisode env actFn AbstractAgent.on_step_end ag).agent k
        = Except.error
          "ValueError: the lengths of S, A, and R must be equal at the end of an episode") ∧
    (∀ m, interact env actFn AbstractAgent.on_step_end MCAgent.on_episode_end ag (m + 1)
        = Except.error
          "ValueError: the lengths of S, A, and R must be equal at the end of an episode") := by
  obtain ⟨h1, h2⟩ := runEpisode_lengths env actFn hnd ag
  refine ⟨h1, h2, fun k => mc_on_episode_end_error _ k h2, fun m => ?_⟩
  rw [interact, List.range_eq_range', List.range'_succ]
  simp only [interactLoop]
  rw [mc_on_episode_end_error _ 0 h2]

/-- Witness for C9 on a concrete never-terminating environment. -/
theorem claim_step_cap_value_error_witness :
    interact envLive (fun _ _ => 0) AbstractAgent.on_step_end MCAgent.on_episode_end
      mcAgCapped 1
      = Except.error
        "ValueError: the lengths of S, A, and R must be equal at the end of an episode" :=
  (claim_step_cap_value_error envLive (fun _ _ => 0) mcAgCapped (fun _ _ => rfl)).2.2.2 0

end RLSpec

namespace RLSpec

/-! ### Agent-state claims -/

/-- C4 counterexample: `reset` does clear the model table — the source's
`reset` reassigns `self.model = {}` alongside the three buffers, so a
nonempty model does not survive a `reset`, contradicting the claim that
the model table is left unchanged and never pruned. -/
theorem claim_reset_frame_cex :
    agModel.model = [((0, 0), (1, 1))] ∧ (AbstractAgent.reset agModel).model = [] :=
  ⟨rfl, rfl⟩

/-- C4 (amended): `reset` (also run by the abstract `on_episode_end` at
every episode boundary) empties the three trajectory buffers `S`, `A`,
`R` AND the Dyna-Q model table, and leaves the action-value table `Q`,
the visit-count table, and every hyperparameter unchanged. -/
theorem claim_reset_frame (ag : AgentState) (k : ℕ) :
    (AbstractAgent.reset ag).S = [] ∧ (AbstractAgent.reset ag).A = [] ∧
    (AbstractAgent.reset ag).R = [] ∧ (AbstractAgent.reset ag).model = [] ∧
    (AbstractAgent.reset ag).Q = ag.Q ∧
    (AbstractAgent.reset ag).state_action_count = ag.state_action_count ∧
    (AbstractAgent.reset ag).learning = ag.learning ∧
    (AbstractAgent.reset ag).epsilon = ag.epsilon ∧
    (AbstractAgent.reset ag).alpha = ag.alpha ∧
    (AbstractAgent.reset ag).gamma = ag.gamma ∧
    AbstractAgent.on_episode_end ag k = AbstractAgent.reset ag :=
  ⟨rfl, rfl, rfl, rfl, rfl, rfl, rfl, rfl, rfl, rfl, rfl⟩

/-- C1: evaluating `MCAgent.on_episode_end` at the spec's two-step
scenario (`S = [s0, s1]`, `A = [a0, a1]`, `R = [r1, r2] = [1, 2]`,
`gamma = 1`, all Q zero).  The backward loop iterates
`range(len(S) - 3, -1, -1)`, which is empty for a two-step episode, so
`Q[(s0, a0)]` stays `0` instead of the claimed `r1 + r2 = 3`. -/
theorem claim_mc_first_visit_eval :
    (MCAgent.on_episode_end mcAgTwoStep 1).toOption.map (fun a => a.Q (0, 0)) = some 0 ∧
    (0 : ℚ) ≠ 1 + 2 := by
  constructor
  · decide
  · norm_num

lemma foldl_max_const (c : ℚ) : ∀ l : List ℚ, (∀ x ∈ l, x = c) → l.foldl max c = c := by
  intro l
  induction l with
  | nil => intro _; rfl
  | cons x xs ih =>
    intro hc
    rw [List.foldl_cons, hc x (by simp), max_self]
    exact ih fun y hy => hc y (by simp [hy])

lemma qMax_const_zero (n s : ℕ) : qMax (fun _ => (0 : ℚ)) n s = 0 := by
  unfold qMax listMax
  cases n with
  | zero => rfl
  | succ m =>
    have hh : (((List.range (m + 1)).map fun _ => (0 : ℚ))).headD 0 = 0 := by
      rw [List.range_succ_eq_map]
      rfl
    rw [hh]
    apply foldl_max_const
    intro x hx
    rw [List.mem_map] at hx
    obtain ⟨_, _, h⟩ := hx
    exact h.symm

/-- C5 counterexample: for `DynaQAgent` with `num_planning_steps = 1`,
the single transition `(0, 0, 1, 1)` with all-zero Q, `alpha = 1/2`,
`gamma = 1` leaves `Q[(0, 0)] = 3/4` — the planning pass bootstraps on
the already-updated entry — not the claimed `0.5 * r = 1/2`. -/
theorem claim_td_single_transition_cex :
    (DynaQAgent.on_step_end dynAgPlanOne 0 (fun _ => 0)).Q (0, 0) = 3/4 ∧
    ¬ ((3/4 : ℚ) = (1/2) * 1) := by
  constructor
  · norm_num [DynaQAgent.on_step_end, dynaPlan, modelInsert, qMax, listMax, dynAgPlanOne,
      baseAgent, List.range_succ, List.lookup]
  · norm_num

/-- C5 (amended): after `on_step_end` for a single transition
`(s, a, r, s')` with every Q entry `0`, `alpha = 1/2` and `gamma = 1`,
`Q[(s, a)] = 0.5 * r` holds for `SARSAAgent` and `QAgent`
unconditionally, and for `DynaQAgent` when `num_planning_steps = 0`
(each planning step moves `Q[(s, a)]` further toward `r`, as the
counterexample shows). -/
theorem claim_td_single_transition (n s a s' a' : ℕ) (r : ℚ) (choice : ℕ → ℕ)
    (hn : 0 < n) :
    (SARSAAgent.on_step_end (tdAgent n 0 [s, s'] [a, a'] [r]) 0).Q (s, a) = (1/2) * r ∧
    (QAgent.on_step_end (tdAgent n 0 [s, s'] [a, a'] [r]) 0).Q (s, a) = (1/2) * r ∧
    (DynaQAgent.on_step_end (tdAgent n 0 [s, s'] [a, a'] [r]) 0 choice).Q (s, a)
      = (1/2) * r := by
  refine ⟨?_, ?_, ?_⟩
  · simp [SARSAAgent.on_step_end, tdAgent, baseAgent]
  · simp [QAgent.on_step_end, qMax_const_zero, tdAgent, baseAgent]
  · simp [DynaQAgent.on_step_end, dynaPlan, qMax_const_zero, tdAgent, baseAgent]

/-- Witness for C5's amended claim at `n = 1`, `(s, a, r, s') = (0, 0, 1, 1)`. -/
theorem claim_td_single_transition_witness :
    (0 : ℕ) < 1 ∧
    (SARSAAgent.on_step_end (tdAgent 1 0 [0, 1] [0, 0] [1]) 0).Q (0, 0) = (1/2) * 1 := by
  refine ⟨by norm_num, ?_⟩
  exact (claim_td_single_transition 1 0 0 1 0 1 (fun _ => 0) (by norm_num)).1

end RLSpec

namespace RLSpec

/-! ### Epsilon-greedy policy claims -/

lemma foldl_max_mem : ∀ (l : List ℚ) (i : ℚ), l.foldl max i ∈ i :: l := by
  intro l
  induction l with
  | nil => intro i; simp
  | cons x xs ih =>
    intro i
    rw [List.foldl_cons]
    have h := ih (max i x)
    rw [List.mem_cons] at h
    simp only [List.mem_cons]
    rcases h with h | h
    · rcases max_choice i x with hm | hm
      · exact Or.inl (h.trans hm)
      · exact Or.inr (Or.inl (h.trans hm))
    · exact Or.inr (Or.inr h)

lemma listMax_mem (l : List ℚ) (h : l ≠ []) : listMax l ∈ l := by
  unfold listMax
  have h2 := foldl_max_mem l (l.headD 0)
  rw [List.mem_cons] at h2
  rcases h2 with h2 | h2
  · rw [h2]
    cases l with
    | nil => exact absurd rfl h
    | cons a as => simp
  · exact h2

lemma maximaList_ne_nil (ag : AgentState) (s : ℕ) (hn : 0 < ag.n) :
    maximaList ag s ≠ [] := by
  have hq : qList ag s ≠ [] := by
    unfold qList
    simp only [ne_eq, List.map_eq_nil_iff, List.range_eq_nil]
    omega
  have hm : listMax (qList ag s) ∈ (List.range ag.n).map (fun a => ag.Q (s, a)) :=
    listMax_mem _ hq
  rw [List.mem_map] at hm
  obtain ⟨a, ha, hqa⟩ := hm
  intro hcon
  have hmem : a ∈ maximaList ag s := by
    rw [maximaList, List.mem_filter]
    exact ⟨ha, by simp [hqa]⟩
  rw [hcon] at hmem
  exact absurd hmem (List.not_mem_nil a)

lemma getD_mod_mem {α : Type} (l : List α) (h : l ≠ []) (i : ℕ) (d : α) :
    l.getD (i % l.length) d ∈ l := by
  have hlen : 0 < l.length := List.length_pos.mpr h
  have hm : i % l.length < l.length := Nat.mod_lt _ hlen
  rw [List.getD_eq_getElem?_getD, List.getElem?_eq_getElem hm, Option.getD_some]
  exact List.getElem_mem hm

lemma greedyAction_mem (ag : AgentState) (s tie : ℕ) (hn : 0 < ag.n) :
    greedyAction ag s tie ∈ maximaList ag s :=
  getD_mod_mem _ (maximaList_ne_nil ag s hn) _ _

lemma greedyAction_is_max (ag : AgentState) (s tie : ℕ) (hn : 0 < ag.n) :
    ag.Q (s, greedyAction ag s tie) = listMax (qList ag s) := by
  have h := greedyAction_mem ag s tie hn
  rw [maximaList, List.mem_filter] at h
  simpa using h.2

lemma explore_on_needs_two (ag : AgentState) (u : ℚ) (hn : 0 < ag.n) (hu1 : u < 1)
    (hex : exploreThreshold ag ≤ u) : 2 ≤ ag.n := by
  by_contra hlt
  have hn1 : ag.n = 1 := by omega
  rw [exploreThreshold, hn1] at hex
  have h1 : (1 : ℚ) - ag.epsilon + ag.epsilon / ((1 : ℕ) : ℚ) = 1 := by norm_num
  rw [h1] at hex
  linarith

lemma nonGreedy_ne_nil (ag : AgentState) (s tie : ℕ) (h2 : 2 ≤ ag.n) :
    nonGreedy ag s tie ≠ [] := by
  intro hcon
  by_cases hg : greedyAction ag s tie = 0
  · have hmem : (1 : ℕ) ∈ nonGreedy ag s tie := by
      rw [nonGreedy, List.mem_filter]
      refine ⟨by rw [List.mem_range]; omega, ?_⟩
      simp only [decide_eq_true_eq]
      omega
    rw [hcon] at hmem
    exact absurd hmem (List.not_mem_nil 1)
  · have hmem : (0 : ℕ) ∈ nonGreedy ag s tie := by
      rw [nonGreedy, List.mem_filter]
      refine ⟨by rw [List.mem_range]; omega, ?_⟩
      simp only [decide_eq_true_eq]
      exact fun hh => hg hh.symm
    rw [hcon] at hmem
    exact absurd hmem (List.not_mem_nil 0)

lemma exploreProb_eq (ag : AgentState) (hn : 0 < ag.n) (he0 : 0 ≤ ag.epsilon) :
    exploreProb ag = ag.epsilon * ((ag.n : ℚ) - 1) / (ag.n : ℚ) := by
  have hnq : (0 : ℚ) < (ag.n : ℚ) := by exact_mod_cast hn
  have hval : (1 : ℚ) - exploreThreshold ag = ag.epsilon * ((ag.n : ℚ) - 1) / (ag.n : ℚ) := by
    rw [exploreThreshold]
    field_simp
    ring
  rw [exploreProb, hval, max_eq_right]
  apply div_nonneg
  · apply mul_nonneg he0
    have h1 : (1 : ℚ) ≤ (ag.n : ℚ) := by exact_mod_cast hn
    linarith
  · linarith

/-- C2 counterexample: the claim says the exploration branch (choosing
among the non-greedy actions) fires with probability exactly `epsilon`.
In the embedding, `random.random()` is the uniform draw `u ∈ [0, 1)` and
`act` explores iff `u ≥ exploreThreshold = 1 - epsilon + epsilon/n`, an
event of probability `exploreProb = epsilon * (n - 1) / n`, not
`epsilon`.  Concretely, with `epsilon = 1/2` and `n = 2` the threshold is
`3/4`: the draw `u = 3/5` lies in the top-`epsilon` mass `[1/2, 1)` where
the claimed scheme must explore, yet `act` returns the greedy action `0`;
the exploration mass is `1/4 ≠ 1/2 = epsilon`. -/
theorem claim_epsilon_greedy_cex :
    agEps.learning = true ∧ agEps.epsilon = 1/2 ∧ agEps.n = 2 ∧
    exploreThreshold agEps = 3/4 ∧
    greedyAction agEps 0 0 = 0 ∧
    act agEps 0 ⟨0, 3/5, 0⟩ = 0 ∧
    exploreProb agEps = 1/4 ∧ ¬ ((1/4 : ℚ) = 1/2) := by
  refine ⟨rfl, rfl, rfl, ?_, ?_, ?_, ?_, by norm_num⟩
  · norm_num [exploreThreshold, agEps, baseAgent]
  · norm_num [greedyAction, maximaList, listMax, qList, agEps, baseAgent, List.range_succ]
  · norm_num [act, exploreThreshold, greedyAction, maximaList, listMax, qList, agEps,
      baseAgent, List.range_succ]
  · norm_num [exploreProb, exploreThreshold, agEps, baseAgent]

/-- C2 (amended): for every state, `act` computes the greedy action among
the maximizers of `Q[(s, ·)]` (the tie-break draw always lands in the
maximizer list); when `learning` holds and the uniform draw `u` reaches
`exploreThreshold = 1 - epsilon + epsilon/n` — an event of probability
`epsilon * (n-1)/n`, i.e. each non-greedy action gets mass `epsilon/n`,
equivalently the textbook scheme "with probability epsilon pick uniformly
among ALL actions" — it returns a non-greedy action; otherwise (in
particular whenever `learning` is false) it returns the greedy action. -/
theorem claim_epsilon_greedy (ag : AgentState) (s : ℕ) (r : ActRand)
    (hn : 0 < ag.n) (he0 : 0 ≤ ag.epsilon) (he1 : ag.epsilon ≤ 1)
    (hu0 : 0 ≤ r.u) (hu1 : r.u < 1) :
    (greedyAction ag s r.tie ∈ maximaList ag s) ∧
    (ag.Q (s, greedyAction ag s r.tie) = listMax (qList ag s)) ∧
    (¬(ag.learning = true ∧ exploreThreshold ag ≤ r.u) →
        act ag s r = greedyAction ag s r.tie) ∧
    ((ag.learning = true ∧ exploreThreshold ag ≤ r.u) →
        act ag s r ∈ nonGreedy ag s r.tie ∧ act ag s r ≠ greedyAction ag s r.tie) ∧
    exploreProb ag = ag.epsilon * ((ag.n : ℚ) - 1) / (ag.n : ℚ) := by
  refine ⟨greedyAction_mem ag s r.tie hn, greedyAction_is_max ag s r.tie hn, ?_, ?_,
    exploreProb_eq ag hn he0⟩
  · intro hno
    rw [act, if_neg hno]
  · intro hyes
    have h2 := explore_on_needs_two ag r.u hn hu1 hyes.2
    have hne := nonGreedy_ne_nil ag s r.tie h2
    have hmem : act ag s r ∈ nonGreedy ag s r.tie := by
      rw [act, if_pos hyes]
      exact getD_mod_mem _ hne _ _
    refine ⟨hmem, ?_⟩
    rw [nonGreedy, List.mem_filter] at hmem
    simpa using hmem.2

/-- Witness for C2's amended claim: with `epsilon = 1/2`, `n = 2` and the
draw `u = 4/5 ≥ 3/4`, `act` lands in the non-greedy list. -/
theorem claim_epsilon_greedy_witness :
    0 < agEps.n ∧ act agEps 0 ⟨0, 4/5, 0⟩ ∈ nonGreedy agEps 0 0 := by
  refine ⟨by norm_num [agEps, baseAgent], ?_⟩
  have h := (claim_epsilon_greedy agEps 0 ⟨0, 4/5, 0⟩ (by norm_num [agEps, baseAgent])
      (by norm_num [agEps, baseAgent]) (by norm_num [agEps, baseAgent]) (by norm_num)
      (by norm_num)).2.2.2.1 ⟨rfl, by norm_num [exploreThreshold, agEps, baseAgent]⟩
  exact h.1

/-- C10: `RLTask.visualize_episode` sets `agent.learning = False` and
never restores it: after the call the flag is still `false` for every
agent, so every subsequent `act` call selects greedily (the exploration
branch is unreachable with the flag down) until the caller flips the flag
back. -/
theorem claim_visualize_disables_learning (ag : AgentState) (s : ℕ) (r : ActRand) :
    (visualize_episode ag).learning = false ∧
    act (visualize_episode ag) s r = greedyAction (visualize_episode ag) s r.tie := by
  refine ⟨rfl, ?_⟩
  rw [act, if_neg]
  rintro ⟨hl, _⟩
  simp [visualize_episode] at hl

end RLSpec
